import Mathlib

/-!
Shallow embedding of the RAG-pipeline-for-bike-manual repository.

Source files embedded:
- `ingest_manuals.py`: text cleaning (`DocumentProcessor.clean_text`),
  document processing (`DocumentProcessor.process_file`), the processed-file
  registry (`VectorDatabase.is_processed` / `mark_processed` /
  `_load_registry`), and the per-file ingestion loop (`RAGPipeline.run`).
- `rag_retrieval.py`: the answering orchestration (`get_answer`).

External collaborators (hashlib.md5, the PDF loader, the Chroma vector store
add/search and the LLM backend) are modelled as function parameters: the
embedded code depends only on their outputs, exactly as the Python code does.
Strings stand for the raw bytes and text handled by the Python code; the
Python whitespace class is modelled by its members that can occur in the
cleaned text handled here.
-/

/-- Whitespace test modelling the class stripped by the Python str.strip()
default: space, tab, newline, carriage return, vertical tab, form feed and
the non-breaking space. -/
def pyIsSpace (c : Char) : Bool :=
  decide (c = ' ' ∨ c = '\t' ∨ c = '\n' ∨ c = '\r' ∨ c = '\x0b' ∨ c = '\x0c' ∨ c = '\xa0')

/-- Output emitted for a pending run of `k` newline characters when the run
ends: runs of three or more collapse to exactly two, shorter runs are kept.
This realises re.sub of three-or-more newlines by two newlines in
`DocumentProcessor.clean_text`. -/
def flushNL (k : Nat) : List Char :=
  if 3 ≤ k then ['\n', '\n'] else List.replicate k '\n'

/-- Scan of the text tracking the length `k` of the pending newline run,
emitting each maximal run through `flushNL`. -/
def collapseAux : Nat → List Char → List Char
  | k, [] => flushNL k
  | k, c :: cs =>
    if c = '\n' then collapseAux (k + 1) cs
    else flushNL k ++ c :: collapseAux 0 cs

/-- Replacement of every maximal run of 3 or more newlines by exactly two
newlines, as the first step of `DocumentProcessor.clean_text`. -/
def collapseNewlines (cs : List Char) : List Char :=
  collapseAux 0 cs

/-- Pointwise replacement of the non-breaking space by a regular space,
as text.replace of the non-breaking space in `DocumentProcessor.clean_text`. -/
def subNbsp (c : Char) : Char :=
  if c = '\xa0' then ' ' else c

/-- Removal of leading whitespace (the left half of Python str.strip). -/
def lstrip (cs : List Char) : List Char :=
  cs.dropWhile pyIsSpace

/-- Removal of trailing whitespace (the right half of Python str.strip). -/
def rstrip (cs : List Char) : List Char :=
  (cs.reverse.dropWhile pyIsSpace).reverse

/-- Python str.strip(): removal of leading and trailing whitespace. -/
def pystrip (cs : List Char) : List Char :=
  rstrip (lstrip cs)

/-- Embedding of `DocumentProcessor.clean_text`: collapse newline runs of
three or more to two, replace non-breaking spaces by spaces, then strip
leading and trailing whitespace, in that order. -/
def clean_text (cs : List Char) : List Char :=
  pystrip ((collapseNewlines cs).map subNbsp)

/-- Test for the first two characters both being newlines. -/
def startsNN : List Char → Bool
  | a :: b :: _ => decide (a = '\n') && decide (b = '\n')
  | _ => false

/-- Test for an occurrence of three consecutive newline characters. -/
def hasTripleNL : List Char → Bool
  | [] => false
  | c :: cs => (decide (c = '\n') && startsNN cs) || hasTripleNL cs

/-- Test that neither end of the text is a whitespace character. -/
def isStripped (l : List Char) : Bool :=
  (match l.head? with
   | none => true
   | some c => !pyIsSpace c) &&
  (match l.getLast? with
   | none => true
   | some c => !pyIsSpace c)

/-! ### Recursive character splitter

Modelled from the spec: the splitting operation is performed by the external
RecursiveCharacterTextSplitter configured in `DocumentProcessor.process_file`;
its algorithm is not part of this repository, so it is modelled from the
specification text, section 4.3 (c)-(d): recursively split on a
priority-ordered list of separators, and hard-split at the character boundary
when a piece still exceeds the maximum after exhausting separators.  The
merge-with-overlap step (e) recombines adjacent pieces while keeping every
chunk within the configured maximum and is omitted: it does not affect the
chunk-length bound verified here. -/

/-- Splitting of a text on a separator sequence, dropping the separators.
A pending piece is accumulated in reverse in `acc`. -/
def splitOnSepAux (sep : List Char) : List Char → List Char → List (List Char)
  | [], acc => [acc.reverse]
  | c :: cs, acc =>
    if h : 0 < sep.length ∧ sep.isPrefixOf (c :: cs) then
      acc.reverse :: splitOnSepAux sep ((c :: cs).drop sep.length) []
    else
      splitOnSepAux sep cs (c :: acc)
termination_by cs _ => cs.length
decreasing_by
  · simp only [List.length_drop, List.length_cons]
    omega
  · simp only [List.length_cons]
    omega

/-- Splitting of a text on a separator sequence; with the empty separator no
split happens (the character-boundary case is handled by `hardSplit`). -/
def splitOnSep (sep cs : List Char) : List (List Char) :=
  splitOnSepAux sep cs []

/-- Hard split at the character boundary into pieces of at most `n`
characters, used when every separator has been exhausted. -/
def hardSplit (n : Nat) (cs : List Char) : List (List Char) :=
  match cs with
  | [] => []
  | c :: rest =>
    if h : n = 0 then [c :: rest]
    else (c :: rest).take n :: hardSplit n ((c :: rest).drop n)
termination_by cs.length
decreasing_by
  simp only [List.length_drop, List.length_cons]
  omega

/-- Recursive splitter: a piece within the maximum is a chunk; otherwise it
is split on the first separator and the pieces are split recursively on the
remaining separators; with no separator left it is hard-split. -/
def splitRec (n : Nat) : List (List Char) → List Char → List (List Char)
  | seps, cs =>
    if cs.length ≤ n then [cs]
    else
      match seps with
      | [] => hardSplit n cs
      | sep :: rest => ((splitOnSep sep cs).map (splitRec n rest)).flatten

/-- Separators configured in `IngestionConfig`: paragraph break, line break,
space, character boundary. -/
def defaultSeparators : List (List Char) :=
  [['\n', '\n'], ['\n'], [' '], []]

/-- Embedding of `DocumentProcessor.process_file`: load the pages of the
document (a load failure is caught and yields zero pages), drop pages whose
stripped content is shorter than 50 characters, clean each remaining page,
split each cleaned page, and concatenate the chunks in document order.  The
splitter and loader are parameters: the splitter is the external
RecursiveCharacterTextSplitter, the loader the external PyPDFLoader. -/
def process_file (split : List Char → List (List Char))
    (load : String → Except String (List String)) (content : String) :
    List (List Char) :=
  match load content with
  | .error _ => []
  | .ok pages =>
    (((pages.filter fun p => 50 ≤ (pystrip p.data).length).map
      fun p => clean_text p.data).map split).flatten

/-! ### Registry and ingestion loop -/

/-- The processed-files registry: a map from file name to last-seen content
hash, as the JSON object held by `VectorDatabase.registry`. -/
def Registry : Type := String → Option String

/-- The empty registry. -/
def emptyRegistry : Registry := fun _ => none

/-- Embedding of `VectorDatabase.is_processed`: the stored entry for
`filename` equals `file_hash`. -/
def is_processed (reg : Registry) (filename file_hash : String) : Bool :=
  decide (reg filename = some file_hash)

/-- Embedding of `VectorDatabase.mark_processed`: upsert of the entry for
`filename`. -/
def mark_processed (reg : Registry) (filename file_hash : String) : Registry :=
  fun n => if n = filename then some file_hash else reg n

/-- Persisted states the registry file can be in when
`VectorDatabase._load_registry` reads it. -/
inductive RegistryFile where
  /-- The registry file does not exist. -/
  | absent : RegistryFile
  /-- The file exists but reading or decoding it raises an error outside
  json.JSONDecodeError (an I/O error such as missing permission, or a text
  decoding error on bytes that are not valid UTF-8). -/
  | readError (e : String) : RegistryFile
  /-- The file reads as text but is not valid JSON, so json.load raises
  json.JSONDecodeError. -/
  | malformedJson : RegistryFile
  /-- The file holds a valid JSON object with the given entries. -/
  | valid (reg : Registry) : RegistryFile

/-- Embedding of `VectorDatabase._load_registry`: an absent file yields the
empty registry; an existing file is opened and parsed, and only
json.JSONDecodeError is caught (yielding the empty registry); any other
exception propagates. -/
def load_registry : RegistryFile → Except String Registry
  | .absent => .ok emptyRegistry
  | .readError e => .error e
  | .malformedJson => .ok emptyRegistry
  | .valid reg => .ok reg

/-- Embedding of `VectorDatabase.add_documents`: an empty list is a no-op,
otherwise the documents are handed to the vector store, which may raise. -/
def add_documents (vadd : List (List Char) → Except String Unit)
    (documents : List (List Char)) : Except String Unit :=
  if documents.isEmpty then .ok () else vadd documents

/-- A source file discovered by the recursive glob in `RAGPipeline.run`:
its path, its basename (file_path.name, the registry key used by the code)
and its content (standing for the raw bytes). -/
structure SrcFile where
  path : String
  name : String
  content : String
deriving DecidableEq

/-- Outcome of one ingestion run: the final registry, the number of
`add_documents` calls made with a non-empty chunk list, the paths of the
files for which `process_file` was invoked (the non-skipped files), and the
uncaught vector-store error that aborted the loop, if any. -/
structure RunResult where
  registry : Registry
  inserts : Nat
  processed : List String
  err : Option String

/-- Embedding of the per-file loop of `RAGPipeline.run`.  For each file in
order: compute the content hash; skip the file when the registry entry for
its basename equals the hash; otherwise run `process_file`; when it yields
chunks, add them to the vector store (an error here is uncaught and aborts
the run) and only then mark the file processed; when it yields no chunks,
only a warning is logged and the registry is not touched.  The hash function
(hashlib.md5 in the code) and the vector-store add are parameters. -/
def runFiles (hash : String → String) (procF : String → List (List Char))
    (vadd : List (List Char) → Except String Unit) :
    List SrcFile → Registry → RunResult
  | [], reg => ⟨reg, 0, [], none⟩
  | f :: fs, reg =>
    let h := hash f.content
    if is_processed reg f.name h then
      runFiles hash procF vadd fs reg
    else
      let docs := procF f.content
      if docs.isEmpty then
        let r := runFiles hash procF vadd fs reg
        ⟨r.registry, r.inserts, f.path :: r.processed, r.err⟩
      else
        match add_documents vadd docs with
        | .error e => ⟨reg, 1, [f.path], some e⟩
        | .ok _ =>
          let r := runFiles hash procF vadd fs (mark_processed reg f.name h)
          ⟨r.registry, r.inserts + 1, f.path :: r.processed, r.err⟩

/-! ### Retrieval and answering (`rag_retrieval.py`) -/

/-- A retrieved document: its text and its source name. -/
structure Document where
  page_content : String
  source : String
deriving DecidableEq

/-- The structured result returned by `get_answer`: a result text and the
list of source documents. -/
structure AnswerResult where
  result : String
  source_documents : List Document
deriving DecidableEq

/-- The prompt assembled by `get_answer` from the custom template of
`initialize_rag` (the grounding instruction sentences of the template are
elided: no verified property depends on their wording). -/
def PROMPT_format (context question : String) : String :=
  "Use the following pieces of context to answer the question at the end.\n\nContext:\n"
    ++ context ++ "\n\nQuestion: " ++ question ++ "\n\nAnswer:"

/-- Body of `get_answer` after initialization: retrieve the top 4 documents
(a retrieval error yields the error result with no sources), join their
texts with blank lines into the context, invoke the LLM once on the
formatted prompt (an LLM error yields the error result with no sources), and
return its text with the retrieved documents.  The second component counts
the LLM invocations made. -/
def get_answer_body (search : String → Nat → Except String (List Document))
    (llm : String → Except String String) (question : String) :
    AnswerResult × Nat :=
  match search question 4 with
  | .error e => (⟨"Error: " ++ e, []⟩, 0)
  | .ok source_documents =>
    let context := String.intercalate "\n\n" (source_documents.map Document.page_content)
    match llm (PROMPT_format context question) with
    | .error e => (⟨"Error: " ++ e, []⟩, 1)
    | .ok result_text => (⟨result_text, source_documents⟩, 1)

/-- Embedding of `get_answer`: when the vector store global is still unset,
run `initialize_rag` first (a failure there, such as the missing API key,
yields the system-error result with no sources and no LLM call); then
retrieve, build the context and generate.  Retrieval, generation and
initialization are parameters standing for the external backends. -/
def get_answer (vector_store_ready : Bool) (init_rag : Except String Unit)
    (search : String → Nat → Except String (List Document))
    (llm : String → Except String String) (question : String) :
    AnswerResult × Nat :=
  if vector_store_ready then
    get_answer_body search llm question
  else
    match init_rag with
    | .error e =>
      (⟨"System Error: Failed to initialize RAG pipeline. " ++ e, []⟩, 0)
    | .ok _ => get_answer_body search llm question

/-! ### Lemmas about the ingestion loop -/

/-- A run over files whose registry entries all match their current hashes
skips every file: the registry is untouched, nothing is inserted, no file is
re-processed. -/
theorem runFiles_skip_all (hash : String → String)
    (procF : String → List (List Char))
    (vadd : List (List Char) → Except String Unit) :
    ∀ (fs : List SrcFile) (reg : Registry),
      (∀ f ∈ fs, reg f.name = some (hash f.content)) →
      runFiles hash procF vadd fs reg = ⟨reg, 0, [], none⟩
  | [], _, _ => rfl
  | f :: fs, reg, h => by
    have h1 : is_processed reg f.name (hash f.content) = true := by
      simp [is_processed, h f (by simp)]
    simp only [runFiles, h1, if_true]
    exact runFiles_skip_all hash procF vadd fs reg fun g hg => h g (by simp [hg])

/-- A prefix of files whose registry entries are all current is skipped
without affecting the rest of the run. -/
theorem runFiles_skip_front (hash : String → String)
    (procF : String → List (List Char))
    (vadd : List (List Char) → Except String Unit) :
    ∀ (pre rest : List SrcFile) (reg : Registry),
      (∀ f ∈ pre, reg f.name = some (hash f.content)) →
      runFiles hash procF vadd (pre ++ rest) reg = runFiles hash procF vadd rest reg
  | [], _, _, _ => by simp
  | f :: pre, rest, reg, h => by
    have h1 : is_processed reg f.name (hash f.content) = true := by
      simp [is_processed, h f (by simp)]
    simp only [List.cons_append, runFiles, h1, if_true]
    exact runFiles_skip_front hash procF vadd pre rest reg fun g hg => h g (by simp [hg])

/-- The run never touches registry entries of names that belong to none of
its files. -/
theorem runFiles_registry_stable (hash : String → String)
    (procF : String → List (List Char))
    (vadd : List (List Char) → Except String Unit) :
    ∀ (fs : List SrcFile) (reg : Registry) (name : String),
      name ∉ fs.map SrcFile.name →
      (runFiles hash procF vadd fs reg).registry name = reg name
  | [], _, _, _ => rfl
  | f :: fs, reg, name, h => by
    have hne : name ≠ f.name := by
      intro he; exact h (by simp [he])
    have hrest : name ∉ fs.map SrcFile.name := by
      intro he; exact h (by simp [he])
    by_cases hp : is_processed reg f.name (hash f.content) = true
    · simp only [runFiles, hp, if_true]
      exact runFiles_registry_stable hash procF vadd fs reg name hrest
    · simp only [runFiles, eq_false_of_ne_true hp, if_false]
      by_cases hd : (procF f.content).isEmpty = true
      · simp only [hd, if_true]
        exact runFiles_registry_stable hash procF vadd fs reg name hrest
      · simp only [eq_false_of_ne_true hd, if_false]
        rcases hv : add_documents vadd (procF f.content) with e | u
        · rfl
        · have := runFiles_registry_stable hash procF vadd fs
            (mark_processed reg f.name (hash f.content)) name hrest
          simp [this, mark_processed, if_neg hne]

/-- After a run in which every vector-store add succeeds, over files with
pairwise distinct basenames, every file that produced chunks has its
registry entry set to the hash of its content. -/
theorem runFiles_marks (hash : String → String)
    (procF : String → List (List Char))
    (vadd : List (List Char) → Except String Unit) :
    ∀ (fs : List SrcFile) (reg : Registry),
      (fs.map SrcFile.name).Nodup →
      (∀ ds, vadd ds = .ok ()) →
      ∀ f ∈ fs, (procF f.content).isEmpty = false →
        (runFiles hash procF vadd fs reg).registry f.name = some (hash f.content)
  | [], _, _, _, f, hf, _ => absurd hf (List.not_mem_nil f)
  | g :: fs, reg, hnd, hok, f, hf, hne => by
    have hnd' : g.name ∉ fs.map SrcFile.name ∧ (fs.map SrcFile.name).Nodup := by
      rw [List.map_cons, List.nodup_cons] at hnd
      exact hnd
    have hnd1 := hnd'.1
    have hnd2 := hnd'.2
    rcases List.mem_cons.mp hf with rfl | hmem
    · by_cases hp : is_processed reg f.name (hash f.content) = true
      · simp only [runFiles, hp, if_true]
        have := runFiles_registry_stable hash procF vadd fs reg f.name hnd1
        rw [this]
        simpa [is_processed] using hp
      · simp only [runFiles, hp, if_false]
        simp only [hne, if_false]
        rcases hv : add_documents vadd (procF f.content) with e | u
        · rw [add_documents, if_neg (by simp [hne])] at hv
          rw [hok (procF f.content)] at hv
          exact absurd hv (by simp)
        · have := runFiles_registry_stable hash procF vadd fs
            (mark_processed reg f.name (hash f.content)) f.name hnd1
          simp [this, mark_processed]
    · by_cases hp : is_processed reg g.name (hash g.content) = true
      · simp only [runFiles, hp, if_true]
        exact runFiles_marks hash procF vadd fs reg hnd2 hok f hmem hne
      · simp only [runFiles, hp, if_false]
        by_cases hd : (procF g.content).isEmpty = true
        · simp only [hd, if_true]
          exact runFiles_marks hash procF vadd fs reg hnd2 hok f hmem hne
        · simp only [eq_false_of_ne_true hd, if_false]
          rcases hv : add_documents vadd (procF g.content) with e | u
          · rw [add_documents, if_neg (by simp [eq_false_of_ne_true hd])] at hv
            rw [hok (procF g.content)] at hv
            exact absurd hv (by simp)
          · exact runFiles_marks hash procF vadd fs
              (mark_processed reg g.name (hash g.content)) hnd2 hok f hmem hne

/-- A run in which every file that would produce chunks is already current
performs zero insertions. -/
theorem runFiles_no_insert (hash : String → String)
    (procF : String → List (List Char))
    (vadd : List (List Char) → Except String Unit) :
    ∀ (fs : List SrcFile) (reg : Registry),
      (∀ f ∈ fs, (procF f.content).isEmpty = false →
        reg f.name = some (hash f.content)) →
      (runFiles hash procF vadd fs reg).inserts = 0
  | [], _, _ => rfl
  | f :: fs, reg, h => by
    have hrest : ∀ g ∈ fs, (procF g.content).isEmpty = false →
        reg g.name = some (hash g.content) :=
      fun g hg => h g (by simp [hg])
    by_cases hp : is_processed reg f.name (hash f.content) = true
    · simp only [runFiles, hp, if_true]
      exact runFiles_no_insert hash procF vadd fs reg hrest
    · simp only [runFiles, hp, if_false]
      have hd : (procF f.content).isEmpty = true := by
        by_contra hd
        exact hp (by simp [is_processed, h f (by simp) (eq_false_of_ne_true hd)])
      simp only [hd, if_true]
      exact runFiles_no_insert hash procF vadd fs reg hrest

/-! ### Concrete sample data for witnesses and counterexamples -/

/-- A 50-character content string, long enough to pass the minimum
meaningful-content threshold. -/
def sampleLongA : String := String.mk (List.replicate 50 'a')

/-- `sampleLongA` with its first byte mutated. -/
def sampleLongA2 : String := String.mk ('b' :: List.replicate 49 'a')

/-- A second, distinct 50-character content string. -/
def sampleLongC : String := String.mk (List.replicate 50 'c')

/-- A content string below the 50-character threshold. -/
def sampleShort : String := "tiny"

/-- A loader that extracts the content as a single page. -/
def sampleLoad : String → Except String (List String) := fun c => .ok [c]

/-- A loader that fails on every document, as a corrupt file makes
PyPDFLoader do. -/
def failLoad : String → Except String (List String) := fun _ => .error "corrupt"

/-- A vector-store add that always succeeds. -/
def sampleAdd : List (List Char) → Except String Unit := fun _ => .ok ()

/-- The document processor with the default configuration (chunk size 800,
the default separators) over `sampleLoad`. -/
def sampleProc : String → List (List Char) :=
  process_file (splitRec 800 defaultSeparators) sampleLoad

/-! ### Claims about the ingestion loop -/

/-- C2 counterexample: a file whose single page strips to fewer than 50
characters yields zero chunks, but contrary to the claim the run leaves the
registry entry for it absent (the file is not marked processed), and a
second run over the same corpus re-processes it. -/
theorem claim_C2_counterexample :
    sampleProc sampleShort = [] ∧
    (runFiles id sampleProc sampleAdd [⟨"a/S.pdf", "S.pdf", sampleShort⟩]
      emptyRegistry).registry "S.pdf" = none ∧
    (runFiles id sampleProc sampleAdd [⟨"a/S.pdf", "S.pdf", sampleShort⟩]
      (runFiles id sampleProc sampleAdd [⟨"a/S.pdf", "S.pdf", sampleShort⟩]
        emptyRegistry).registry).processed = ["a/S.pdf"] := by
  refine ⟨by decide, by decide, by decide⟩

/-- C2 amended: a file whose pages all strip below the 50-character
threshold yields zero chunks, and the run does NOT update its registry
entry: the loop re-examines the file on every subsequent run, while the rest
of the run proceeds unchanged. -/
theorem claim_C2_amended (split : List Char → List (List Char))
    (load : String → Except String (List String)) (hash : String → String)
    (vadd : List (List Char) → Except String Unit) (f : SrcFile)
    (fs : List SrcFile) (reg : Registry) (pages : List String)
    (hload : load f.content = .ok pages)
    (hshort : ∀ p ∈ pages, (pystrip p.data).length < 50)
    (hp : is_processed reg f.name (hash f.content) = false) :
    process_file split load f.content = [] ∧
    runFiles hash (process_file split load) vadd (f :: fs) reg =
      ⟨(runFiles hash (process_file split load) vadd fs reg).registry,
       (runFiles hash (process_file split load) vadd fs reg).inserts,
       f.path :: (runFiles hash (process_file split load) vadd fs reg).processed,
       (runFiles hash (process_file split load) vadd fs reg).err⟩ := by
  have heq : process_file split load f.content
      = (((pages.filter fun p => 50 ≤ (pystrip p.data).length).map
          fun p => clean_text p.data).map split).flatten := by
    rw [process_file, hload]
  have hfil : pages.filter (fun p => 50 ≤ (pystrip p.data).length) = [] := by
    rw [List.filter_eq_nil_iff]
    intro p hmem
    simpa using Nat.not_le.mpr (hshort p hmem)
  have hpf : process_file split load f.content = [] := by
    rw [heq, hfil]
    rfl
  refine ⟨hpf, ?_⟩
  simp [runFiles, hp, hpf]

/-- C2 amended witness at the concrete short file. -/
theorem claim_C2_amended_witness :
    sampleProc sampleShort = [] ∧
    runFiles id sampleProc sampleAdd [⟨"a/S.pdf", "S.pdf", sampleShort⟩]
      emptyRegistry =
      ⟨(runFiles id sampleProc sampleAdd [] emptyRegistry).registry,
       (runFiles id sampleProc sampleAdd [] emptyRegistry).inserts,
       "a/S.pdf" :: (runFiles id sampleProc sampleAdd [] emptyRegistry).processed,
       (runFiles id sampleProc sampleAdd [] emptyRegistry).err⟩ :=
  claim_C2_amended (splitRec 800 defaultSeparators) sampleLoad id sampleAdd
    ⟨"a/S.pdf", "S.pdf", sampleShort⟩ [] emptyRegistry [sampleShort]
    rfl (by decide) (by decide)

/-- C3 counterexample: the registry key is the file basename, not the
canonical path.  With two files of the same basename in different
directories, mutating one byte of the first file makes the second run
re-process BOTH files (the unchanged second file included), refuting
re-ingestion of exactly the mutated file. -/
theorem claim_C3_counterexample :
    (runFiles id sampleProc sampleAdd
        [⟨"a/X.pdf", "X.pdf", sampleLongA2⟩, ⟨"b/X.pdf", "X.pdf", sampleLongC⟩]
        (runFiles id sampleProc sampleAdd
          [⟨"a/X.pdf", "X.pdf", sampleLongA⟩, ⟨"b/X.pdf", "X.pdf", sampleLongC⟩]
          emptyRegistry).registry).processed ≠ ["a/X.pdf"] ∧
    (runFiles id sampleProc sampleAdd
        [⟨"a/X.pdf", "X.pdf", sampleLongA2⟩, ⟨"b/X.pdf", "X.pdf", sampleLongC⟩]
        (runFiles id sampleProc sampleAdd
          [⟨"a/X.pdf", "X.pdf", sampleLongA⟩, ⟨"b/X.pdf", "X.pdf", sampleLongC⟩]
          emptyRegistry).registry).processed = ["a/X.pdf", "b/X.pdf"] := by
  refine ⟨by decide, by decide⟩

/-- C3 amended: file identity for change detection is the file BASENAME.
When the registry entry of exactly one file no longer matches its content
hash (as a one-byte mutation produces, absent a hash collision) and every
other file is current under its own distinct basename, the run re-processes
exactly the mutated file. -/
theorem claim_C3_amended (hash : String → String)
    (procF : String → List (List Char))
    (vadd : List (List Char) → Except String Unit)
    (pre post : List SrcFile) (fj : SrcFile) (reg : Registry)
    (hpre : ∀ f ∈ pre, reg f.name = some (hash f.content))
    (hj : reg fj.name ≠ some (hash fj.content))
    (hpost : ∀ f ∈ post, reg f.name = some (hash f.content) ∧ f.name ≠ fj.name) :
    (runFiles hash procF vadd (pre ++ fj :: post) reg).processed = [fj.path] := by
  rw [runFiles_skip_front hash procF vadd pre _ reg hpre]
  have hp : is_processed reg fj.name (hash fj.content) = false := by
    simp [is_processed, hj]
  by_cases hd : (procF fj.content).isEmpty = true
  · have hskip := runFiles_skip_all hash procF vadd post reg fun f hf => (hpost f hf).1
    simp [runFiles, hp, hd, hskip]
  · rcases hv : add_documents vadd (procF fj.content) with e | u
    · simp [runFiles, hp, eq_false_of_ne_true hd, hv]
    · have hskip := runFiles_skip_all hash procF vadd post
        (mark_processed reg fj.name (hash fj.content)) fun f hf => by
          rw [mark_processed]
          simp only [if_neg (hpost f hf).2]
          exact (hpost f hf).1
      simp [runFiles, hp, eq_false_of_ne_true hd, hv, hskip]

/-- C3 amended witness: one mutated file among current files with distinct
basenames is the only file re-processed. -/
theorem claim_C3_amended_witness :
    (runFiles id sampleProc sampleAdd
        [⟨"a/X.pdf", "X.pdf", sampleLongA2⟩, ⟨"b/Y.pdf", "Y.pdf", sampleLongC⟩]
        (fun n => if n = "X.pdf" then some sampleLongA
                  else if n = "Y.pdf" then some sampleLongC else none)).processed
      = ["a/X.pdf"] :=
  claim_C3_amended id sampleProc sampleAdd []
    [⟨"b/Y.pdf", "Y.pdf", sampleLongC⟩] ⟨"a/X.pdf", "X.pdf", sampleLongA2⟩
    (fun n => if n = "X.pdf" then some sampleLongA
              else if n = "Y.pdf" then some sampleLongC else none)
    (by intro f hf; exact absurd hf (List.not_mem_nil f))
    (by decide) (by decide)

/-- C4 counterexample: with two files of the same basename but different
content, the second run over the unchanged corpus performs vector-store
insertions (the registry entry ping-pongs between the two hashes), refuting
the unconditional idempotence claim. -/
theorem claim_C4_counterexample :
    ¬ (runFiles id sampleProc sampleAdd
        [⟨"a/X.pdf", "X.pdf", sampleLongA⟩, ⟨"b/X.pdf", "X.pdf", sampleLongC⟩]
        (runFiles id sampleProc sampleAdd
          [⟨"a/X.pdf", "X.pdf", sampleLongA⟩, ⟨"b/X.pdf", "X.pdf", sampleLongC⟩]
          emptyRegistry).registry).inserts = 0 := by
  decide

/-- C4 amended: when the discovered files have pairwise distinct basenames
and every vector-store add succeeds, running the ingestion loop twice over
an unchanged corpus performs zero index insertions on the second run. -/
theorem claim_C4_amended (hash : String → String)
    (procF : String → List (List Char))
    (vadd : List (List Char) → Except String Unit)
    (fs : List SrcFile) (reg0 : Registry)
    (hnd : (fs.map SrcFile.name).Nodup)
    (hok : ∀ ds, vadd ds = .ok ()) :
    (runFiles hash procF vadd fs
      (runFiles hash procF vadd fs reg0).registry).inserts = 0 := by
  apply runFiles_no_insert
  intro f hf hne
  exact runFiles_marks hash procF vadd fs reg0 hnd hok f hf hne

/-- C4 amended witness at a concrete two-file corpus with distinct
basenames. -/
theorem claim_C4_amended_witness :
    (runFiles id sampleProc sampleAdd
        [⟨"a/X.pdf", "X.pdf", sampleLongA⟩, ⟨"b/Y.pdf", "Y.pdf", sampleLongC⟩]
        (runFiles id sampleProc sampleAdd
          [⟨"a/X.pdf", "X.pdf", sampleLongA⟩, ⟨"b/Y.pdf", "Y.pdf", sampleLongC⟩]
          emptyRegistry).registry).inserts = 0 :=
  claim_C4_amended id sampleProc sampleAdd
    [⟨"a/X.pdf", "X.pdf", sampleLongA⟩, ⟨"b/Y.pdf", "Y.pdf", sampleLongC⟩]
    emptyRegistry (by decide) (fun _ => rfl)

/-- C5: the registry entry of a file is written only after the vector-store
add of its chunks returns successfully.  If the add raises, the run aborts
with the registry exactly as it was (the file is retried next run); if the
add succeeds, the entry is upserted and the loop continues. -/
theorem claim_C5 (hash : String → String)
    (procF : String → List (List Char))
    (vadd : List (List Char) → Except String Unit)
    (f : SrcFile) (fs : List SrcFile) (reg : Registry)
    (hp : is_processed reg f.name (hash f.content) = false)
    (hd : (procF f.content).isEmpty = false) :
    (∀ e, vadd (procF f.content) = .error e →
      runFiles hash procF vadd (f :: fs) reg = ⟨reg, 1, [f.path], some e⟩) ∧
    (vadd (procF f.content) = .ok () →
      runFiles hash procF vadd (f :: fs) reg =
        ⟨(runFiles hash procF vadd fs
            (mark_processed reg f.name (hash f.content))).registry,
         (runFiles hash procF vadd fs
            (mark_processed reg f.name (hash f.content))).inserts + 1,
         f.path :: (runFiles hash procF vadd fs
            (mark_processed reg f.name (hash f.content))).processed,
         (runFiles hash procF vadd fs
            (mark_processed reg f.name (hash f.content))).err⟩) := by
  constructor
  · intro e he
    have hv : add_documents vadd (procF f.content) = .error e := by
      rw [add_documents, if_neg (by simp [hd])]
      exact he
    simp [runFiles, hp, hd, hv]
  · intro he
    have hv : add_documents vadd (procF f.content) = .ok () := by
      rw [add_documents, if_neg (by simp [hd])]
      exact he
    simp [runFiles, hp, hd, hv]

/-- C5 witness: a failing vector-store add leaves the registry empty and
surfaces the error. -/
theorem claim_C5_witness :
    runFiles id sampleProc (fun _ => .error "boom")
      [⟨"a/X.pdf", "X.pdf", sampleLongA⟩] emptyRegistry
      = ⟨emptyRegistry, 1, ["a/X.pdf"], some "boom"⟩ :=
  (claim_C5 id sampleProc (fun _ => .error "boom")
    ⟨"a/X.pdf", "X.pdf", sampleLongA⟩ [] emptyRegistry
    (by decide) (by decide)).1 "boom" rfl

/-- C8: a document whose load fails contributes zero chunks (the failure is
caught inside process_file), its registry entry is not written, and the loop
proceeds to the remaining files exactly as if the file were absent (apart
from being recorded as examined). -/
theorem claim_C8 (split : List Char → List (List Char))
    (load : String → Except String (List String)) (hash : String → String)
    (vadd : List (List Char) → Except String Unit) (f : SrcFile)
    (fs : List SrcFile) (reg : Registry) (e : String)
    (hload : load f.content = .error e)
    (hp : is_processed reg f.name (hash f.content) = false) :
    process_file split load f.content = [] ∧
    runFiles hash (process_file split load) vadd (f :: fs) reg =
      ⟨(runFiles hash (process_file split load) vadd fs reg).registry,
       (runFiles hash (process_file split load) vadd fs reg).inserts,
       f.path :: (runFiles hash (process_file split load) vadd fs reg).processed,
       (runFiles hash (process_file split load) vadd fs reg).err⟩ := by
  have hpf : process_file split load f.content = [] := by
    rw [process_file, hload]
  refine ⟨hpf, ?_⟩
  simp [runFiles, hp, hpf]

/-- C8 witness: a corrupt first file is skipped and the second file is still
ingested (one insertion, its registry entry set). -/
theorem claim_C8_witness :
    process_file (splitRec 800 defaultSeparators) failLoad sampleLongA = [] ∧
    runFiles id (process_file (splitRec 800 defaultSeparators) failLoad)
      sampleAdd [⟨"a/X.pdf", "X.pdf", sampleLongA⟩, ⟨"b/Y.pdf", "Y.pdf", sampleLongC⟩]
      emptyRegistry =
      ⟨(runFiles id (process_file (splitRec 800 defaultSeparators) failLoad)
          sampleAdd [⟨"b/Y.pdf", "Y.pdf", sampleLongC⟩] emptyRegistry).registry,
       (runFiles id (process_file (splitRec 800 defaultSeparators) failLoad)
          sampleAdd [⟨"b/Y.pdf", "Y.pdf", sampleLongC⟩] emptyRegistry).inserts,
       "a/X.pdf" :: (runFiles id (process_file (splitRec 800 defaultSeparators) failLoad)
          sampleAdd [⟨"b/Y.pdf", "Y.pdf", sampleLongC⟩] emptyRegistry).processed,
       (runFiles id (process_file (splitRec 800 defaultSeparators) failLoad)
          sampleAdd [⟨"b/Y.pdf", "Y.pdf", sampleLongC⟩] emptyRegistry).err⟩ :=
  claim_C8 (splitRec 800 defaultSeparators) failLoad id sampleAdd
    ⟨"a/X.pdf", "X.pdf", sampleLongA⟩ [⟨"b/Y.pdf", "Y.pdf", sampleLongC⟩]
    emptyRegistry "corrupt" rfl (by decide)

/-! ### Claims about registry loading -/

/-- C6 counterexample: an existing registry file that cannot be read (an
I/O or text-decoding error, raising outside json.JSONDecodeError) makes
loading raise instead of degrading to the empty registry. -/
theorem claim_C6_counterexample :
    load_registry (.readError "PermissionError") = .error "PermissionError" := rfl

/-- C6 amended: an absent registry file or one whose contents fail JSON
parsing yields the empty registry; a valid file yields its entries; but a
read that raises outside json.JSONDecodeError propagates and fails the
run. -/
theorem claim_C6_amended :
    load_registry .absent = .ok emptyRegistry ∧
    load_registry .malformedJson = .ok emptyRegistry ∧
    (∀ reg, load_registry (.valid reg) = .ok reg) ∧
    (∀ e, load_registry (.readError e) = .error e) :=
  ⟨rfl, rfl, fun _ => rfl, fun _ => rfl⟩

/-! ### Claims about the answering operation -/

/-- C1 counterexample: with zero retrieval results the answering operation
still invokes the generation backend (invocation count 1) and returns the
text the backend produced, not an explicit no-context answer. -/
theorem claim_C1_counterexample :
    (get_answer true (.ok ()) (fun _ _ => .ok [])
      (fun _ => .ok "Fabricated") "q").2 = 1 ∧
    (get_answer true (.ok ()) (fun _ _ => .ok [])
      (fun _ => .ok "Fabricated") "q").1
      = ⟨"Fabricated", []⟩ := by
  exact ⟨rfl, rfl⟩

/-- C1 amended: when the vector search returns zero results, the answering
operation does NOT short-circuit: it builds an empty context, invokes the
generation backend exactly once on the empty-context prompt, and returns the
backend text (or the error result) with an empty source list. -/
theorem claim_C1_amended (search : String → Nat → Except String (List Document))
    (llm : String → Except String String) (q : String)
    (h : search q 4 = .ok []) :
    get_answer true (.ok ()) search llm q =
      match llm (PROMPT_format "" q) with
      | .error e => (⟨"Error: " ++ e, []⟩, 1)
      | .ok t => (⟨t, []⟩, 1) := by
  rw [get_answer, if_pos rfl, get_answer_body, h]
  rfl

/-- C1 amended witness at a concrete empty search and a concrete backend. -/
theorem claim_C1_amended_witness :
    get_answer true (.ok ()) (fun _ _ => .ok [])
      (fun _ => .ok "t") "q" = (⟨"t", []⟩, 1) :=
  claim_C1_amended (fun _ _ => .ok []) (fun _ => .ok "t") "q" rfl

/-- C10: the answering operation is total on every failure mode.  A failed
initialization (such as the missing API key), a retrieval error and a
generation error each yield a structured result whose text carries the error
description and whose source list is empty: in particular the generation
error path discards the documents retrieval had already returned. -/
theorem claim_C10 (q : String) :
    (∀ (e : String) (search : String → Nat → Except String (List Document))
        (llm : String → Except String String),
      get_answer false (.error e) search llm q =
        (⟨"System Error: Failed to initialize RAG pipeline. " ++ e, []⟩, 0)) ∧
    (∀ (init_rag : Except String Unit)
        (search : String → Nat → Except String (List Document))
        (llm : String → Except String String) (e : String),
      search q 4 = .error e →
      get_answer true init_rag search llm q = (⟨"Error: " ++ e, []⟩, 0)) ∧
    (∀ (init_rag : Except String Unit)
        (search : String → Nat → Except String (List Document))
        (llm : String → Except String String) (docs : List Document) (e : String),
      search q 4 = .ok docs →
      llm (PROMPT_format
        (String.intercalate "\n\n" (docs.map Document.page_content)) q) = .error e →
      get_answer true init_rag search llm q = (⟨"Error: " ++ e, []⟩, 1)) := by
  refine ⟨fun e search llm => rfl, ?_, ?_⟩
  · intro init_rag search llm e hs
    have h0 : get_answer true init_rag search llm q
        = get_answer_body search llm q := rfl
    rw [h0, get_answer_body, hs]
  · intro init_rag search llm docs e hs hl
    have h0 : get_answer true init_rag search llm q
        = get_answer_body search llm q := rfl
    rw [h0, get_answer_body, hs]
    simp only [hl]

/-- C10 witness: all three failure modes at concrete backends; the third
retrieves a non-empty document list which the error path discards. -/
theorem claim_C10_witness :
    get_answer false (.error "no key") (fun _ _ => .ok [])
      (fun _ => .ok "x") "q"
      = (⟨"System Error: Failed to initialize RAG pipeline. no key", []⟩, 0) ∧
    get_answer true (.ok ()) (fun _ _ => .error "search down")
      (fun _ => .ok "x") "q" = (⟨"Error: search down", []⟩, 0) ∧
    get_answer true (.ok ()) (fun _ _ => .ok [⟨"ctx", "m.pdf"⟩])
      (fun _ => .error "llm down") "q" = (⟨"Error: llm down", []⟩, 1) :=
  ⟨(claim_C10 "q").1 "no key" (fun _ _ => .ok []) (fun _ => .ok "x"),
   (claim_C10 "q").2.1 (.ok ()) (fun _ _ => .error "search down")
     (fun _ => .ok "x") "search down" rfl,
   (claim_C10 "q").2.2 (.ok ()) (fun _ _ => .ok [⟨"ctx", "m.pdf"⟩])
     (fun _ => .error "llm down") [⟨"ctx", "m.pdf"⟩] "llm down" rfl rfl⟩

/-! ### Claim about the chunk-length bound -/

/-- Every piece of a hard split has length at most the (positive) bound. -/
theorem hardSplit_length (n : Nat) (hn : 0 < n) :
    ∀ (cs c : List Char), c ∈ hardSplit n cs → c.length ≤ n
  | [], c, hc => by simp [hardSplit] at hc
  | a :: rest, c, hc => by
    rw [hardSplit] at hc
    rw [dif_neg (Nat.pos_iff_ne_zero.mp hn)] at hc
    rcases List.mem_cons.mp hc with rfl | hmem
    · rw [List.length_take]
      exact min_le_left n _
    · exact hardSplit_length n hn ((a :: rest).drop n) c hmem
termination_by cs => cs.length
decreasing_by
  simp only [List.length_drop, List.length_cons]
  omega

/-- Every chunk produced by the recursive splitter has length at most the
(positive) configured maximum. -/
theorem splitRec_length (n : Nat) (hn : 0 < n) :
    ∀ (seps : List (List Char)) (cs c : List Char),
      c ∈ splitRec n seps cs → c.length ≤ n
  | [], cs, c, hc => by
    rw [splitRec] at hc
    by_cases hle : cs.length ≤ n
    · rw [if_pos hle] at hc
      simp at hc
      subst hc
      exact hle
    · rw [if_neg hle] at hc
      exact hardSplit_length n hn cs c hc
  | sep :: rest, cs, c, hc => by
    rw [splitRec] at hc
    by_cases hle : cs.length ≤ n
    · rw [if_pos hle] at hc
      simp at hc
      subst hc
      exact hle
    · rw [if_neg hle] at hc
      replace hc : c ∈ ((splitOnSep sep cs).map (splitRec n rest)).flatten := hc
      rcases List.mem_flatten.mp hc with ⟨l, hl, hcl⟩
      rcases List.mem_map.mp hl with ⟨piece, hpiece, rfl⟩
      exact splitRec_length n hn rest piece c hcl

/-- C7: every chunk produced by processing a file with the recursive
splitter at a positive maximum chunk size `n` (800 in the default
configuration) has length at most `n`. -/
theorem claim_C7 (n : Nat) (hn : 0 < n) (seps : List (List Char))
    (load : String → Except String (List String)) (content : String) :
    ∀ c ∈ process_file (splitRec n seps) load content, c.length ≤ n := by
  intro c hc
  rw [process_file] at hc
  rcases hload : load content with e | pages
  · rw [hload] at hc
    simp at hc
  · rw [hload] at hc
    replace hc : c ∈ (((pages.filter fun p => 50 ≤ (pystrip p.data).length).map
        fun p => clean_text p.data).map (splitRec n seps)).flatten := hc
    rcases List.mem_flatten.mp hc with ⟨l, hl, hcl⟩
    rcases List.mem_map.mp hl with ⟨piece, hpiece, rfl⟩
    exact splitRec_length n hn seps piece c hcl

/-- C7 witness at the default chunk size 800 and a concrete document. -/
theorem claim_C7_witness :
    0 < 800 ∧ ∀ c ∈ sampleProc sampleLongA, c.length ≤ 800 :=
  ⟨by decide, claim_C7 800 (by decide) defaultSeparators sampleLoad sampleLongA⟩

/-! ### Lemmas about the text cleaning -/

/-- A non-newline head does not influence the triple-newline test. -/
theorem hasTripleNL_cons_of_ne {c : Char} (l : List Char) (hc : c ≠ '\n') :
    hasTripleNL (c :: l) = hasTripleNL l := by
  simp [hasTripleNL, hc]

/-- The triple-newline test is monotone under removing the head. -/
theorem hasTripleNL_tail {c : Char} {l : List Char}
    (h : hasTripleNL (c :: l) = false) : hasTripleNL l = false := by
  rw [hasTripleNL, Bool.or_eq_false_iff] at h
  exact h.2

/-- A non-newline head makes the two-newline prefix test false. -/
theorem startsNN_cons_ne {c : Char} (l : List Char) (hc : c ≠ '\n') :
    startsNN (c :: l) = false := by
  cases l <;> simp [startsNN, hc]

/-- The two-newline prefix test survives appending on the right. -/
theorem startsNN_append {p : List Char} (s : List Char)
    (h : startsNN p = true) : startsNN (p ++ s) = true := by
  match p with
  | [] => simp [startsNN] at h
  | [a] => simp [startsNN] at h
  | a :: b :: t => simpa [startsNN] using h

/-- A triple newline in a prefix is a triple newline in the whole list. -/
theorem hasTripleNL_append_left {p : List Char} (s : List Char)
    (h : hasTripleNL p = true) : hasTripleNL (p ++ s) = true := by
  induction p with
  | nil => simp [hasTripleNL] at h
  | cons c p ih =>
    rw [hasTripleNL, Bool.or_eq_true] at h
    rcases h with h | h
    · rw [List.cons_append, hasTripleNL, Bool.or_eq_true]
      left
      rw [Bool.and_eq_true] at h
      rw [Bool.and_eq_true]
      exact ⟨h.1, startsNN_append s h.2⟩
    · rw [List.cons_append, hasTripleNL, Bool.or_eq_true]
      right
      exact ih h

/-- Absence of a triple newline passes to any suffix. -/
theorem hasTripleNL_append_right {a : List Char} (b : List Char)
    (h : hasTripleNL (a ++ b) = false) : hasTripleNL b = false := by
  induction a with
  | nil => simpa using h
  | cons c a ih => exact ih (hasTripleNL_tail (by simpa using h))

/-- A replicate of at most two newlines has no triple newline. -/
theorem hasTripleNL_replicate_le {k : Nat} (hk : k ≤ 2) :
    hasTripleNL (List.replicate k '\n') = false := by
  interval_cases k <;> decide

/-- A replicate of at least three newlines has a triple newline. -/
theorem hasTripleNL_replicate_ge {k : Nat} (hk : 3 ≤ k) :
    hasTripleNL (List.replicate k '\n') = true := by
  obtain ⟨m, rfl⟩ : ∃ m, k = m + 3 := ⟨k - 3, by omega⟩
  show hasTripleNL (List.replicate (m + 1 + 1 + 1) '\n') = true
  simp [List.replicate_succ, hasTripleNL, startsNN]

/-- The flushed newline run is a replicate of at most two newlines. -/
theorem flushNL_eq_replicate (k : Nat) :
    flushNL k = List.replicate (min k 2) '\n' := by
  by_cases hk : 3 ≤ k
  · rw [flushNL, if_pos hk]
    have h2 : min k 2 = 2 := by omega
    rw [h2]
    rfl
  · rw [flushNL, if_neg hk]
    have h2 : min k 2 = k := by omega
    rw [h2]

/-- A flushed run followed by a non-newline character adds no triple
newline. -/
theorem hasTripleNL_flush_cons {c : Char} (k : Nat) (X : List Char)
    (hc : c ≠ '\n') :
    hasTripleNL (flushNL k ++ c :: X) = hasTripleNL X := by
  rw [flushNL_eq_replicate]
  have h2 : min k 2 = 0 ∨ min k 2 = 1 ∨ min k 2 = 2 := by omega
  rcases h2 with h2 | h2 | h2 <;> rw [h2]
  · simpa using hasTripleNL_cons_of_ne X hc
  · show hasTripleNL ('\n' :: c :: X) = hasTripleNL X
    rw [hasTripleNL, startsNN_cons_ne X hc, hasTripleNL_cons_of_ne X hc]
    simp
  · show hasTripleNL ('\n' :: '\n' :: c :: X) = hasTripleNL X
    rw [hasTripleNL, hasTripleNL, startsNN_cons_ne X hc,
      hasTripleNL_cons_of_ne X hc]
    rw [show startsNN ('\n' :: c :: X) = false by simp [startsNN, hc]]
    simp

/-- The collapse scan never outputs three consecutive newlines. -/
theorem hasTripleNL_collapseAux : ∀ (cs : List Char) (k : Nat),
    hasTripleNL (collapseAux k cs) = false := by
  intro cs
  induction cs with
  | nil =>
    intro k
    rw [collapseAux, flushNL_eq_replicate]
    exact hasTripleNL_replicate_le (by omega)
  | cons c cs ih =>
    intro k
    by_cases hc : c = '\n'
    · subst hc
      rw [collapseAux, if_pos rfl]
      exact ih (k + 1)
    · rw [collapseAux, if_neg hc, hasTripleNL_flush_cons k _ hc]
      exact ih 0

/-- The non-breaking-space substitution maps no character to a newline that
was not one. -/
theorem subNbsp_eq_nl (c : Char) : (subNbsp c = '\n') ↔ (c = '\n') := by
  rw [subNbsp]
  by_cases hc : c = '\xa0'
  · subst hc
    rw [if_pos rfl]
    decide
  · rw [if_neg hc]

/-- The substitution leaves whitespace-ness unchanged. -/
theorem pyIsSpace_subNbsp (c : Char) : pyIsSpace (subNbsp c) = pyIsSpace c := by
  rw [subNbsp]
  by_cases hc : c = '\xa0'
  · subst hc
    rw [if_pos rfl]
    decide
  · rw [if_neg hc]

/-- A non-whitespace character is left unchanged by the substitution. -/
theorem subNbsp_eq_self {c : Char} (h : pyIsSpace c = false) : subNbsp c = c := by
  rw [subNbsp, if_neg]
  intro he
  subst he
  simp [pyIsSpace] at h

/-- The two-newline prefix test is invariant under the substitution. -/
theorem startsNN_map_subNbsp (l : List Char) :
    startsNN (l.map subNbsp) = startsNN l := by
  match l with
  | [] => rfl
  | [a] => rfl
  | a :: b :: t =>
    show startsNN (subNbsp a :: subNbsp b :: t.map subNbsp) = _
    rw [startsNN, startsNN,
      decide_eq_decide.mpr (subNbsp_eq_nl a), decide_eq_decide.mpr (subNbsp_eq_nl b)]

/-- The triple-newline test is invariant under the substitution. -/
theorem hasTripleNL_map_subNbsp (l : List Char) :
    hasTripleNL (l.map subNbsp) = hasTripleNL l := by
  induction l with
  | nil => rfl
  | cons c l ih =>
    show hasTripleNL (subNbsp c :: l.map subNbsp) = _
    rw [hasTripleNL, hasTripleNL, ih, startsNN_map_subNbsp,
      decide_eq_decide.mpr (subNbsp_eq_nl c)]

/-- Absence of a triple newline survives dropping a prefix with dropWhile. -/
theorem hasTripleNL_dropWhile {l : List Char} (p : Char → Bool)
    (h : hasTripleNL l = false) : hasTripleNL (l.dropWhile p) = false := by
  induction l with
  | nil => simpa using h
  | cons c l ih =>
    rw [List.dropWhile_cons]
    by_cases hp : p c = true
    · rw [if_pos hp]
      exact ih (hasTripleNL_tail h)
    · rw [if_neg hp]
      exact h

/-- The right strip is a prefix: the stripped list plus the reversed
whitespace run is the original. -/
theorem rstrip_append (l : List Char) :
    rstrip l ++ (l.reverse.takeWhile pyIsSpace).reverse = l := by
  rw [rstrip, ← List.reverse_append, List.takeWhile_append_dropWhile,
    List.reverse_reverse]

/-- Absence of a triple newline survives the right strip. -/
theorem hasTripleNL_rstrip {l : List Char}
    (h : hasTripleNL l = false) : hasTripleNL (rstrip l) = false := by
  by_contra hne
  have htrue : hasTripleNL (rstrip l) = true := by
    cases hv : hasTripleNL (rstrip l)
    · exact absurd hv hne
    · rfl
  have := hasTripleNL_append_left (l.reverse.takeWhile pyIsSpace).reverse htrue
  rw [rstrip_append] at this
  rw [this] at h
  exact Bool.true_eq_false.mp h

/-- Absence of a triple newline survives the full strip. -/
theorem hasTripleNL_pystrip {l : List Char}
    (h : hasTripleNL l = false) : hasTripleNL (pystrip l) = false :=
  hasTripleNL_rstrip (hasTripleNL_dropWhile pyIsSpace h)

/-- Members of the left strip are members of the list. -/
theorem mem_of_mem_lstrip {c : Char} {l : List Char}
    (h : c ∈ lstrip l) : c ∈ l := by
  rw [← List.takeWhile_append_dropWhile (p := pyIsSpace) (l := l)]
  exact List.mem_append_right _ h

/-- Members of the right strip are members of the list. -/
theorem mem_of_mem_rstrip {c : Char} {l : List Char}
    (h : c ∈ rstrip l) : c ∈ l := by
  have hm := List.mem_append_left (l.reverse.takeWhile pyIsSpace).reverse h
  rwa [rstrip_append] at hm

/-- Members of the full strip are members of the list. -/
theorem mem_of_mem_pystrip {c : Char} {l : List Char}
    (h : c ∈ pystrip l) : c ∈ l :=
  mem_of_mem_lstrip (mem_of_mem_rstrip h)

/-- The substitution leaves no non-breaking space in its output. -/
theorem nbsp_not_mem_map_subNbsp (l : List Char) : '\xa0' ∉ l.map subNbsp := by
  intro hmem
  rcases List.mem_map.mp hmem with ⟨a, _, ha⟩
  rw [subNbsp] at ha
  by_cases hc : a = '\xa0'
  · rw [if_pos hc] at ha
    exact absurd ha (by decide)
  · rw [if_neg hc] at ha
    exact hc ha

/-- The head of a dropWhile output never satisfies the predicate. -/
theorem head_dropWhile_not (p : Char → Bool) :
    ∀ (l : List Char) (c : Char), (l.dropWhile p).head? = some c → p c = false := by
  intro l
  induction l with
  | nil => intro c hc; simp at hc
  | cons a l ih =>
    intro c hc
    rw [List.dropWhile_cons] at hc
    by_cases hp : p a = true
    · rw [if_pos hp] at hc
      exact ih c hc
    · rw [if_neg hp] at hc
      simp at hc
      subst hc
      exact eq_false_of_ne_true hp

/-- The full strip leaves no whitespace at either end. -/
theorem isStripped_pystrip (m : List Char) : isStripped (pystrip m) = true := by
  rw [isStripped, Bool.and_eq_true]
  constructor
  · cases hh : (pystrip m).head? with
    | none => rfl
    | some a =>
      have hh' : (lstrip m).head? = some a := by
        rcases hq : pystrip m with _ | ⟨b, t⟩
        · rw [hq] at hh
          simp at hh
        · rw [hq] at hh
          simp at hh
          subst hh
          have hq' : rstrip (lstrip m) = b :: t := hq
          have hdecomp := rstrip_append (lstrip m)
          rw [hq'] at hdecomp
          rw [← hdecomp, List.cons_append]
          rfl
      have hns := head_dropWhile_not pyIsSpace m a hh'
      simp [hns]
  · cases hl : (pystrip m).getLast? with
    | none => rfl
    | some b =>
      have hb : ((lstrip m).reverse.dropWhile pyIsSpace).head? = some b := by
        have hl' : (rstrip (lstrip m)).getLast? = some b := hl
        rw [rstrip] at hl'
        rwa [List.getLast?_reverse] at hl'
      have hns := head_dropWhile_not pyIsSpace (lstrip m).reverse b hb
      simp [hns]

/-- Flushed newline runs hold no non-whitespace character. -/
theorem filter_flushNL (k : Nat) :
    (flushNL k).filter (fun c => !pyIsSpace c) = [] := by
  rw [flushNL_eq_replicate, List.filter_eq_nil_iff]
  intro a ha
  rw [List.eq_of_mem_replicate ha]
  decide

/-- The collapse scan preserves the non-whitespace characters in order. -/
theorem filter_collapseAux : ∀ (cs : List Char) (k : Nat),
    (collapseAux k cs).filter (fun c => !pyIsSpace c)
      = cs.filter (fun c => !pyIsSpace c) := by
  intro cs
  induction cs with
  | nil =>
    intro k
    rw [collapseAux, filter_flushNL]
    rfl
  | cons c cs ih =>
    intro k
    by_cases hc : c = '\n'
    · subst hc
      rw [collapseAux, if_pos rfl, ih (k + 1), List.filter_cons, if_neg (by decide)]
    · rw [collapseAux, if_neg hc, List.filter_append, filter_flushNL,
        List.nil_append, List.filter_cons, List.filter_cons, ih 0]

/-- The substitution preserves the non-whitespace characters in order. -/
theorem filter_map_subNbsp (l : List Char) :
    (l.map subNbsp).filter (fun c => !pyIsSpace c)
      = l.filter (fun c => !pyIsSpace c) := by
  induction l with
  | nil => rfl
  | cons c l ih =>
    rw [List.map_cons, List.filter_cons, List.filter_cons, pyIsSpace_subNbsp]
    by_cases hsp : pyIsSpace c = true
    · simp [hsp, ih]
    · have hsp' := eq_false_of_ne_true hsp
      simp [hsp', ih, subNbsp_eq_self hsp']

/-- The left strip preserves the non-whitespace characters. -/
theorem filter_lstrip (l : List Char) :
    (lstrip l).filter (fun c => !pyIsSpace c) = l.filter (fun c => !pyIsSpace c) := by
  conv_rhs => rw [← List.takeWhile_append_dropWhile (p := pyIsSpace) (l := l)]
  rw [List.filter_append]
  have hnil : (l.takeWhile pyIsSpace).filter (fun c => !pyIsSpace c) = [] := by
    rw [List.filter_eq_nil_iff]
    intro a ha
    simp [List.mem_takeWhile_imp ha]
  rw [hnil, List.nil_append]
  rfl

/-- The right strip preserves the non-whitespace characters. -/
theorem filter_rstrip (l : List Char) :
    (rstrip l).filter (fun c => !pyIsSpace c) = l.filter (fun c => !pyIsSpace c) := by
  conv_rhs => rw [← rstrip_append l]
  rw [List.filter_append]
  have hnil : ((l.reverse.takeWhile pyIsSpace).reverse).filter
      (fun c => !pyIsSpace c) = [] := by
    rw [List.filter_eq_nil_iff]
    intro a ha
    rw [List.mem_reverse] at ha
    simp [List.mem_takeWhile_imp ha]
  rw [hnil, List.append_nil]

/-- The full strip preserves the non-whitespace characters. -/
theorem filter_pystrip (l : List Char) :
    (pystrip l).filter (fun c => !pyIsSpace c) = l.filter (fun c => !pyIsSpace c) := by
  rw [pystrip, filter_rstrip, filter_lstrip]

/-- The cleaning operation preserves the non-whitespace characters in
order: it deletes, inserts and changes only whitespace. -/
theorem filter_clean_text (s : List Char) :
    (clean_text s).filter (fun c => !pyIsSpace c) = s.filter (fun c => !pyIsSpace c) := by
  rw [clean_text, filter_pystrip, filter_map_subNbsp, collapseNewlines,
    filter_collapseAux]

/-- A replicate absorbs an equal following head. -/
theorem replicate_append_cons (k : Nat) (a : Char) (cs : List Char) :
    List.replicate k a ++ a :: cs = List.replicate (k + 1) a ++ cs := by
  rw [List.replicate_succ' k a, List.append_assoc]
  rfl

/-- On an input with no triple newline the collapse scan is the identity
(with the pending run prepended). -/
theorem collapseAux_id : ∀ (cs : List Char) (k : Nat),
    hasTripleNL (List.replicate k '\n' ++ cs) = false →
    collapseAux k cs = List.replicate k '\n' ++ cs := by
  intro cs
  induction cs with
  | nil =>
    intro k h
    rw [List.append_nil] at h
    have hk : k ≤ 2 := by
      by_contra hk
      rw [hasTripleNL_replicate_ge (by omega)] at h
      exact absurd h (by decide)
    rw [collapseAux, flushNL_eq_replicate, List.append_nil]
    have hmin : min k 2 = k := by omega
    rw [hmin]
  | cons c cs ih =>
    intro k h
    by_cases hc : c = '\n'
    · subst hc
      rw [collapseAux, if_pos rfl]
      rw [replicate_append_cons] at h ⊢
      exact ih (k + 1) h
    · have hk : k ≤ 2 := by
        by_contra hk
        have htr := hasTripleNL_append_left (c :: cs)
          (hasTripleNL_replicate_ge (k := k) (by omega))
        rw [htr] at h
        exact absurd h (by decide)
      have hcs : hasTripleNL cs = false :=
        hasTripleNL_tail (hasTripleNL_append_right (c :: cs) h)
      rw [collapseAux, if_neg hc, flushNL_eq_replicate]
      have hmin : min k 2 = k := by omega
      rw [hmin, ih 0 (by simpa using hcs)]
      simp

/-- Removing non-breaking spaces is the identity when none occur. -/
theorem map_subNbsp_id {l : List Char} (h : '\xa0' ∉ l) : l.map subNbsp = l := by
  induction l with
  | nil => rfl
  | cons c l ih =>
    have hc : c ≠ '\xa0' := by
      intro he
      subst he
      exact h (List.mem_cons_self _ _)
    rw [List.map_cons, subNbsp, if_neg hc,
      ih fun hm => h (List.mem_cons_of_mem c hm)]

/-- The left strip is the identity when the head is not whitespace. -/
theorem lstrip_eq_self {l : List Char}
    (h : ∀ a, l.head? = some a → pyIsSpace a = false) : lstrip l = l := by
  cases l with
  | nil => rfl
  | cons a t =>
    rw [lstrip, List.dropWhile_cons, if_neg (by simp [h a rfl])]

/-- The right strip is the identity when the last character is not
whitespace. -/
theorem rstrip_eq_self {l : List Char}
    (h : ∀ a, l.getLast? = some a → pyIsSpace a = false) : rstrip l = l := by
  rw [rstrip]
  have hdw : l.reverse.dropWhile pyIsSpace = l.reverse := by
    cases hr : l.reverse with
    | nil => rfl
    | cons a t =>
      have hla : l.getLast? = some a := by
        rw [← List.head?_reverse, hr]
        rfl
      rw [List.dropWhile_cons, if_neg (by simp [h a hla])]
  rw [hdw, List.reverse_reverse]

/-- The full strip is the identity on a stripped list. -/
theorem pystrip_eq_self {l : List Char} (h : isStripped l = true) :
    pystrip l = l := by
  rw [isStripped, Bool.and_eq_true] at h
  have h1 : ∀ a, l.head? = some a → pyIsSpace a = false := by
    intro a ha
    have hx := h.1
    rw [ha] at hx
    simpa using hx
  have h2 : ∀ a, l.getLast? = some a → pyIsSpace a = false := by
    intro a ha
    have hx := h.2
    rw [ha] at hx
    simpa using hx
  rw [pystrip, lstrip_eq_self h1, rstrip_eq_self h2]

/-- The cleaning operation is the identity on already-clean text: no triple
newline, no non-breaking space, no whitespace at the ends. -/
theorem clean_text_id {s : List Char}
    (h1 : hasTripleNL s = false) (h2 : '\xa0' ∉ s) (h3 : isStripped s = true) :
    clean_text s = s := by
  rw [clean_text, collapseNewlines, collapseAux_id s 0 (by simpa using h1)]
  rw [show List.replicate 0 '\n' ++ s = s from rfl]
  rw [map_subNbsp_id h2, pystrip_eq_self h3]

/-- C9: the cleaning operation leaves no run of three or more newlines, no
non-breaking space and no leading or trailing whitespace; it changes nothing
else: the non-whitespace characters are preserved exactly and in order, and
on text that already satisfies the three invariants it is the identity. -/
theorem claim_C9 (s : List Char) :
    hasTripleNL (clean_text s) = false ∧
    '\xa0' ∉ clean_text s ∧
    isStripped (clean_text s) = true ∧
    (clean_text s).filter (fun c => !pyIsSpace c) = s.filter (fun c => !pyIsSpace c) ∧
    (hasTripleNL s = false → '\xa0' ∉ s → isStripped s = true →
      clean_text s = s) := by
  refine ⟨?_, ?_, ?_, filter_clean_text s, fun h1 h2 h3 => clean_text_id h1 h2 h3⟩
  · show hasTripleNL (pystrip ((collapseNewlines s).map subNbsp)) = false
    refine hasTripleNL_pystrip ?_
    rw [hasTripleNL_map_subNbsp, collapseNewlines]
    exact hasTripleNL_collapseAux s 0
  · intro hmem
    exact nbsp_not_mem_map_subNbsp (collapseNewlines s) (mem_of_mem_pystrip hmem)
  · exact isStripped_pystrip _

/-- C9 witness at a concrete dirty string and a concrete clean string. -/
theorem claim_C9_witness :
    hasTripleNL (clean_text "  ab\n\n\n\ncd\xa0e ".data) = false ∧
    '\xa0' ∉ clean_text "  ab\n\n\n\ncd\xa0e ".data ∧
    isStripped (clean_text "  ab\n\n\n\ncd\xa0e ".data) = true ∧
    (clean_text "  ab\n\n\n\ncd\xa0e ".data).filter (fun c => !pyIsSpace c)
      = ("  ab\n\n\n\ncd\xa0e ".data).filter (fun c => !pyIsSpace c) ∧
    clean_text "ab\n\ncd".data = "ab\n\ncd".data :=
  ⟨(claim_C9 "  ab\n\n\n\ncd\xa0e ".data).1,
   (claim_C9 "  ab\n\n\n\ncd\xa0e ".data).2.1,
   (claim_C9 "  ab\n\n\n\ncd\xa0e ".data).2.2.1,
   (claim_C9 "  ab\n\n\n\ncd\xa0e ".data).2.2.2.1,
   (claim_C9 "ab\n\ncd".data).2.2.2.2 (by decide) (by decide) (by decide)⟩
